import Mathlib

/-!
Verification of the secure echo channel of this repository
(src/challenge2/main.go and its variant src/unnamed/part_000).

The embedding models the byte-stream transport as a list of chunks (one
chunk per underlying Read call), io.ReadFull as the accumulating loop it
is, a bare Read as a single-chunk call, and the nacl box primitives as a
spec-modelled authenticated cipher over bytes mod 256.
-/

namespace SecureChannel

/-- Bytes are integers mod 256, matching Go byte arithmetic. -/
abbrev Byte := ZMod 256

/-- A stream transport delivers bytes in chunks: one chunk per underlying
Read call, possibly fewer bytes than the caller requested. -/
abbrev Stream := List (List Byte)

/-- Error kinds surfaced by the Go code: io errors, the wrapped errors of
SecureReader.Read (read nonce / read message / open message), and the
error paths of Dial and Serve. -/
inductive GoErr where
  | eof
  | unexpectedEOF
  | readNonce
  | readMessage
  | openMessage
  | transportWrite
  | generateKey
  | dialFail
  | writeKey
  | readKey
deriving DecidableEq

/-- Total number of bytes a stream still holds. -/
def streamLen (st : Stream) : Nat := (st.map List.length).sum

/-- One underlying Read call with a buffer of size n: it returns at most
the head chunk, never blocking for more; an empty stream yields EOF. -/
def readChunk (n : Nat) (st : Stream) : List Byte × Stream × Option GoErr :=
  match st with
  | [] => ([], [], some .eof)
  | c :: rest =>
      if c.length ≤ n then (c, rest, none)
      else (c.take n, c.drop n :: rest, none)

/-- Accumulation loop of io.ReadFull: keep issuing underlying Read calls
until n bytes have arrived or the stream is exhausted. -/
def readFullAux : Nat → Stream → List Byte × Stream
  | _, [] => ([], [])
  | n, c :: rest =>
      if n ≤ c.length then
        (c.take n, if c.length ≤ n then rest else c.drop n :: rest)
      else
        (c ++ (readFullAux (n - c.length) rest).1, (readFullAux (n - c.length) rest).2)

/-- Semantics of io.ReadFull: exactly n bytes or an error; zero bytes read
gives EOF, a partial read gives ErrUnexpectedEOF. -/
def readFull (n : Nat) (st : Stream) : List Byte × Stream × Option GoErr :=
  let r := readFullAux n st
  if r.1.length = n then (r.1, r.2, none)
  else if r.1.length = 0 then (r.1, r.2, some .eof)
  else (r.1, r.2, some .unexpectedEOF)

theorem streamLen_nil : streamLen [] = 0 := rfl

theorem streamLen_cons (c : List Byte) (st : Stream) :
    streamLen (c :: st) = c.length + streamLen st := by
  simp [streamLen]

theorem readFullAux_fst_length (st : Stream) (n : Nat) :
    (readFullAux n st).1.length = min n (streamLen st) := by
  induction st generalizing n with
  | nil => simp [readFullAux, streamLen]
  | cons c rest ih =>
      simp only [readFullAux]
      split_ifs with h h2 <;> simp [streamLen_cons, ih, List.length_take] <;> omega

theorem readFull_err_none_iff (n : Nat) (st : Stream) :
    (readFull n st).2.2 = none ↔ n ≤ streamLen st := by
  have h := readFullAux_fst_length st n
  simp only [readFull]
  split_ifs with h1 h2 <;> simp <;> omega

theorem readFull_fst (n : Nat) (st : Stream) :
    (readFull n st).1 = (readFullAux n st).1 := by
  simp only [readFull]
  split_ifs <;> rfl

theorem readFull_fst_length (n : Nat) (st : Stream) :
    (readFull n st).1.length = min n (streamLen st) := by
  rw [readFull_fst]
  exact readFullAux_fst_length st n

/-- Overhead of box: the 16-byte authentication tag (box.Overhead). -/
def Overhead : Nat := 16

/-- Modelled from the spec: box.GenerateKey's relation between a private
scalar and its public key ("produces fresh public/private key pairs"),
abstracted as exponentiation of a fixed base, the usual Diffie–Hellman
shape. -/
def pubOf (priv : Nat) : Nat := 2 ^ priv

/-- Modelled from the spec: the shared secret behind box.Seal/box.Open
("the tag binds the ciphertext to (nonce, sender private key, recipient
public key)"): the peer's public key raised to the local private scalar,
so both sides of a handshake derive the same secret. -/
def shared (priv pubKey : Nat) : Nat := pubKey ^ priv

/-- Modelled from the spec: the keystream pad the authenticated cipher
derives from the shared secret and the nonce. -/
def pad (k : Nat) (nonce : List Byte) : Byte := (k : Byte) + nonce.sum

/-- Modelled from the spec: the 16-byte authentication tag appended to the
ciphertext body; it binds the shared secret, the nonce and the body. -/
def tagOf (k : Nat) (nonce body : List Byte) : List Byte :=
  List.replicate 15 (pad k nonce) ++ [body.sum + pad k nonce]

/-- Modelled from the spec: box.Seal without the prepended destination
slice: encrypted body followed by the 16-byte tag, so the ciphertext is
plaintext length + Overhead bytes. -/
def boxSeal (k : Nat) (nonce msg : List Byte) : List Byte :=
  msg.map (fun b => b + pad k nonce) ++ tagOf k nonce (msg.map (fun b => b + pad k nonce))

/-- Modelled from the spec: box.Open; the tag is verified first and
plaintext is produced only when verification succeeds (fail closed). -/
def boxOpen (k : Nat) (nonce ct : List Byte) : Option (List Byte) :=
  if ct.length < Overhead then none
  else
    if ct.drop (ct.length - Overhead) = tagOf k nonce (ct.take (ct.length - Overhead)) then
      some ((ct.take (ct.length - Overhead)).map (fun b => b - pad k nonce))
    else none

theorem shared_comm (privA privB : Nat) :
    shared privA (pubOf privB) = shared privB (pubOf privA) := by
  simp only [shared, pubOf, ← pow_mul]
  rw [Nat.mul_comm]

theorem boxSeal_length (k : Nat) (nonce msg : List Byte) :
    (boxSeal k nonce msg).length = msg.length + Overhead := by
  simp [boxSeal, tagOf, Overhead]

theorem boxOpen_boxSeal (k : Nat) (nonce msg : List Byte) :
    boxOpen k nonce (boxSeal k nonce msg) = some msg := by
  have hlen : (boxSeal k nonce msg).length = msg.length + Overhead :=
    boxSeal_length k nonce msg
  have hbody : (msg.map (fun b => b + pad k nonce)).length = msg.length :=
    List.length_map _ _
  have htake : (boxSeal k nonce msg).take ((boxSeal k nonce msg).length - Overhead) =
      msg.map (fun b => b + pad k nonce) := by
    rw [hlen, Nat.add_sub_cancel, boxSeal, ← hbody, List.take_left]
  have hdrop : (boxSeal k nonce msg).drop ((boxSeal k nonce msg).length - Overhead) =
      tagOf k nonce (msg.map (fun b => b + pad k nonce)) := by
    rw [hlen, Nat.add_sub_cancel, boxSeal, ← hbody, List.drop_left]
  rw [boxOpen, if_neg (by omega), htake, hdrop, if_pos rfl]
  have hcomp : ((fun b => b - pad k nonce) ∘ fun b : Byte => b + pad k nonce) = id := by
    funext b
    simp
  rw [List.map_map, hcomp, List.map_id]

/-- Outcome of one SecureReader.Read call: the Go return count, the error,
the plaintext bytes delivered into the caller's buffer, and the part of
the underlying stream left unconsumed. -/
structure ReadResult where
  ret : Nat
  err : Option GoErr
  delivered : List Byte
  rest : Stream
deriving DecidableEq

/-- SecureReader.Read of src/challenge2/main.go: io.ReadFull a 24-byte
nonce (short read fails), one single underlying Read call into a buffer of
len(message) + box.Overhead bytes, then box.Open into message[:0]; every
error branch returns the count read by the failing step. -/
def readC2 (priv pubKey cap : Nat) (st : Stream) : ReadResult :=
  match readFull 24 st with
  | (nb, st1, some _) => ⟨nb.length, some .readNonce, [], st1⟩
  | (nonce, st1, none) =>
      match readChunk (cap + Overhead) st1 with
      | (cb, st2, some _) => ⟨cb.length, some .readMessage, [], st2⟩
      | (cb, st2, none) =>
          match boxOpen (shared priv pubKey) nonce cb with
          | none => ⟨cb.length, some .openMessage, [], st2⟩
          | some dec => ⟨dec.length, none, dec, st2⟩

/-- SecureReader.Read of src/unnamed/part_000: same steps as the
challenge2 variant, but every error branch returns 0. -/
def readP0 (priv pubKey cap : Nat) (st : Stream) : ReadResult :=
  match readFull 24 st with
  | (_, st1, some _) => ⟨0, some .readNonce, [], st1⟩
  | (nonce, st1, none) =>
      match readChunk (cap + Overhead) st1 with
      | (_, st2, some _) => ⟨0, some .readMessage, [], st2⟩
      | (cb, st2, none) =>
          match boxOpen (shared priv pubKey) nonce cb with
          | none => ⟨0, some .openMessage, [], st2⟩
          | some dec => ⟨dec.length, none, dec, st2⟩

/-- Outcome of one SecureWriter.Write call: the Go return count, the
error, the payload of each underlying Write call issued, and the rest of
the random source. -/
structure WriteResult where
  ret : Nat
  err : Option GoErr
  emitted : List (List Byte)
  randRest : Stream
deriving DecidableEq

/-- SecureWriter.Write of src/challenge2/main.go: io.ReadFull a fresh
24-byte nonce from the random source, box.Seal with the nonce slice as
destination (so the frame is nonce followed by ciphertext), one single
underlying Write call, and return len(message) on success; a failed
underlying write returns its count with the error. -/
def writeC2 (priv pubKey : Nat) (uw : List Byte → Nat × Option GoErr)
    (rand : Stream) (message : List Byte) : WriteResult :=
  match readFull 24 rand with
  | (_, r1, some e) => ⟨0, some e, [], r1⟩
  | (nonce, r1, none) =>
      match uw (nonce ++ boxSeal (shared priv pubKey) nonce message) with
      | (ws, some e) => ⟨ws, some e, [nonce ++ boxSeal (shared priv pubKey) nonce message], r1⟩
      | (_, none) => ⟨message.length, none, [nonce ++ boxSeal (shared priv pubKey) nonce message], r1⟩

/-- SecureWriter.Write of src/unnamed/part_000: identical to the
challenge2 variant except that a failed underlying write returns 0. -/
def writeP0 (priv pubKey : Nat) (uw : List Byte → Nat × Option GoErr)
    (rand : Stream) (message : List Byte) : WriteResult :=
  match readFull 24 rand with
  | (_, r1, some e) => ⟨0, some e, [], r1⟩
  | (nonce, r1, none) =>
      match uw (nonce ++ boxSeal (shared priv pubKey) nonce message) with
      | (_, some e) => ⟨0, some e, [nonce ++ boxSeal (shared priv pubKey) nonce message], r1⟩
      | (_, none) => ⟨message.length, none, [nonce ++ boxSeal (shared priv pubKey) nonce message], r1⟩

/-- Underlying writer that accepts every write in full, as a healthy TCP
connection does. -/
def okWriter : List Byte → Nat × Option GoErr := fun bs => (bs.length, none)

/-- Outcome of the two-step handshake: the payload of each write call
issued, the learned peer public key, the error, and the rest of the
incoming stream. -/
structure HandshakeResult where
  sent : List (List Byte)
  peer : Option (List Byte)
  err : Option GoErr
  rest : Stream
deriving DecidableEq

/-- Handshake as executed inside Dial (src/challenge2/main.go, lines
90–97): conn.Write the local public key, then io.ReadFull exactly 32
bytes for the peer's public key; either failure aborts with an error. -/
def dialHandshake (localPub : List Byte) (writeOk : Bool) (st : Stream) : HandshakeResult :=
  if writeOk then
    match readFull 32 st with
    | (_, st1, some _) => ⟨[localPub], none, some .readKey, st1⟩
    | (peer, st1, none) => ⟨[localPub], some peer, none, st1⟩
  else ⟨[localPub], none, some .writeKey, st⟩

/-- Handshake as executed inside a Serve connection goroutine
(src/challenge2/main.go, lines 128–134): textually the same two steps as
in Dial — write the local public key, then io.ReadFull exactly 32
bytes. -/
def serveHandshake (localPub : List Byte) (writeOk : Bool) (st : Stream) : HandshakeResult :=
  if writeOk then
    match readFull 32 st with
    | (_, st1, some _) => ⟨[localPub], none, some .readKey, st1⟩
    | (peer, st1, none) => ⟨[localPub], some peer, none, st1⟩
  else ⟨[localPub], none, some .writeKey, st⟩

/-- Fate of the server process observed from one connection goroutine:
either only that goroutine ends, or the whole process is terminated. -/
inductive Fate where
  | taskEnded
  | processTerminated
deriving DecidableEq

/-- Success or failure of each blocking step of one accepted connection:
the handshake write, the handshake 32-byte read, and the echo loop. -/
structure ConnEvents where
  writeOk : Bool
  readOk : Bool
  echoOk : Bool
deriving DecidableEq

/-- Observable outcome of one connection goroutine: what happened to the
process, and whether the connection itself got closed. -/
structure ConnOutcome where
  fate : Fate
  connClosed : Bool
deriving DecidableEq

/-- Per-connection goroutine of Serve in src/challenge2/main.go: every
failure (handshake write, handshake read, echo loop) calls log.Fatalf,
which exits the whole process and skips the deferred conn.Close; only the
clean path ends the goroutine and runs the deferred close. -/
def handleConnC2 (ev : ConnEvents) : ConnOutcome :=
  if !ev.writeOk then ⟨.processTerminated, false⟩
  else if !ev.readOk then ⟨.processTerminated, false⟩
  else if !ev.echoOk then ⟨.processTerminated, false⟩
  else ⟨.taskEnded, true⟩

/-- Per-connection goroutine of Serve in src/unnamed/part_000: every
failure logs and returns from the goroutine, so the deferred conn.Close
always runs and only that connection's task ends. -/
def handleConnP0 (ev : ConnEvents) : ConnOutcome :=
  if !ev.writeOk then ⟨.taskEnded, true⟩
  else if !ev.readOk then ⟨.taskEnded, true⟩
  else if !ev.echoOk then ⟨.taskEnded, true⟩
  else ⟨.taskEnded, true⟩

/-- Outcome of Dial: the peer key bound into the returned handle (none
when Dial returns nil), the error, whether the transport connection was
opened, and whether Dial closed it before returning. -/
structure DialResult where
  handle : Option (List Byte)
  err : Option GoErr
  connOpened : Bool
  connClosed : Bool
deriving DecidableEq

/-- Dial of src/challenge2/main.go: generate a key pair, net.Dial, then
the handshake; every error path returns nil and an error, and no path
calls conn.Close. -/
def dial (genOk dialOk writeOk : Bool) (localPub : List Byte) (st : Stream) : DialResult :=
  if !genOk then ⟨none, some .generateKey, false, false⟩
  else if !dialOk then ⟨none, some .dialFail, false, false⟩
  else
    match dialHandshake localPub writeOk st with
    | ⟨_, _, some e, _⟩ => ⟨none, some e, true, false⟩
    | ⟨_, p, none, _⟩ => ⟨p, none, true, false⟩

theorem readFullAux_exact (n : Nat) (c : List Byte) (rest : Stream) (h : c.length = n) :
    readFullAux n (c :: rest) = (c, rest) := by
  simp only [readFullAux]
  rw [if_pos (le_of_eq h.symm), if_pos (le_of_eq h), List.take_of_length_le (le_of_eq h)]

theorem readFull_exact (n : Nat) (c : List Byte) (rest : Stream) (h : c.length = n) :
    readFull n (c :: rest) = (c, rest, none) := by
  simp only [readFull, readFullAux_exact n c rest h]
  simp [h]

theorem readFull_head_long (n : Nat) (c : List Byte) (rest : Stream) (h : n < c.length) :
    readFull n (c :: rest) = (c.take n, c.drop n :: rest, none) := by
  have haux : readFullAux n (c :: rest) = (c.take n, c.drop n :: rest) := by
    simp only [readFullAux]
    rw [if_pos (le_of_lt h), if_neg (by omega)]
  simp only [readFull, haux]
  rw [if_pos (by simp [List.length_take]; omega)]

theorem readFull_two (n : Nat) (a b : List Byte) (rest : Stream)
    (ha : a.length < n) (hab : a.length + b.length = n) :
    readFull n (a :: b :: rest) = (a ++ b, rest, none) := by
  have haux : readFullAux n (a :: b :: rest) = (a ++ b, rest) := by
    simp only [readFullAux]
    rw [if_neg (by omega)]
    have hnb : n - a.length = b.length := by omega
    rw [hnb]
    simp
  simp only [readFull, haux]
  rw [if_pos (by simp [List.length_append]; omega)]

/-- C1: the claim says every per-connection error on the server terminates
only that connection's task, releasing its resources, and never the whole
process. The challenge2 Serve goroutine instead calls log.Fatalf on every
handshake or echo failure, which exits the whole process and skips the
deferred conn.Close; the part_000 variant logs and returns, matching the
claim. This theorem evaluates both handlers on the failing inputs. -/
theorem claim_C1 :
    (handleConnC2 ⟨false, true, true⟩).fate = Fate.processTerminated ∧
    (handleConnC2 ⟨true, false, true⟩).fate = Fate.processTerminated ∧
    (handleConnC2 ⟨true, true, false⟩).fate = Fate.processTerminated ∧
    (handleConnC2 ⟨false, true, true⟩).connClosed = false ∧
    (handleConnC2 ⟨true, true, true⟩).fate = Fate.taskEnded ∧
    (∀ ev : ConnEvents,
      (handleConnP0 ev).fate = Fate.taskEnded ∧ (handleConnP0 ev).connClosed = true) := by
  refine ⟨rfl, rfl, rfl, rfl, rfl, ?_⟩
  intro ev
  unfold handleConnP0
  split_ifs <;> exact ⟨rfl, rfl⟩

/-- C2: whenever the authentication-tag check fails in SecureReader.Read,
the call returns an error and writes no plaintext bytes into the caller's
buffer, no matter how many ciphertext bytes were read; this holds for both
the challenge2 and the part_000 variant. -/
theorem claim_C2 (priv pubKey cap : Nat) (st st1 st2 : Stream) (nonce cb : List Byte)
    (h1 : readFull 24 st = (nonce, st1, none))
    (h2 : readChunk (cap + Overhead) st1 = (cb, st2, none))
    (h3 : boxOpen (shared priv pubKey) nonce cb = none) :
    (readC2 priv pubKey cap st).delivered = [] ∧
    (readC2 priv pubKey cap st).err = some GoErr.openMessage ∧
    (readP0 priv pubKey cap st).delivered = [] ∧
    (readP0 priv pubKey cap st).err = some GoErr.openMessage := by
  simp [readC2, readP0, h1, h2, h3]

theorem claim_C2_witness :
    (readC2 0 0 0 [List.replicate 24 (0 : Byte), List.replicate 16 (0 : Byte)]).delivered = [] ∧
    (readC2 0 0 0 [List.replicate 24 (0 : Byte), List.replicate 16 (0 : Byte)]).err =
      some GoErr.openMessage ∧
    (readP0 0 0 0 [List.replicate 24 (0 : Byte), List.replicate 16 (0 : Byte)]).delivered = [] ∧
    (readP0 0 0 0 [List.replicate 24 (0 : Byte), List.replicate 16 (0 : Byte)]).err =
      some GoErr.openMessage :=
  claim_C2 0 0 0 [List.replicate 24 (0 : Byte), List.replicate 16 (0 : Byte)]
    [List.replicate 16 (0 : Byte)] [] (List.replicate 24 (0 : Byte)) (List.replicate 16 (0 : Byte))
    (by decide) (by decide) (by decide)

/-- C9: on an authentication failure the challenge2 SecureReader.Read
returns the count of ciphertext bytes it consumed (positive when any
ciphertext arrived) together with the error, although nothing was
delivered to the caller, while the part_000 variant returns 0 in the same
situation. -/
theorem claim_C9 (priv pubKey cap : Nat) (st st1 st2 : Stream) (nonce cb : List Byte)
    (h1 : readFull 24 st = (nonce, st1, none))
    (h2 : readChunk (cap + Overhead) st1 = (cb, st2, none))
    (h3 : boxOpen (shared priv pubKey) nonce cb = none)
    (h4 : 0 < cb.length) :
    (readC2 priv pubKey cap st).ret = cb.length ∧
    0 < (readC2 priv pubKey cap st).ret ∧
    (readC2 priv pubKey cap st).delivered = [] ∧
    (readC2 priv pubKey cap st).err.isSome = true ∧
    (readP0 priv pubKey cap st).ret = 0 ∧
    (readP0 priv pubKey cap st).err.isSome = true := by
  simp [readC2, readP0, h1, h2, h3, h4]

theorem claim_C9_witness :
    (readC2 0 0 0 [List.replicate 24 (0 : Byte), List.replicate 16 (0 : Byte)]).ret = 16 ∧
    0 < (readC2 0 0 0 [List.replicate 24 (0 : Byte), List.replicate 16 (0 : Byte)]).ret ∧
    (readC2 0 0 0 [List.replicate 24 (0 : Byte), List.replicate 16 (0 : Byte)]).delivered = [] ∧
    (readC2 0 0 0 [List.replicate 24 (0 : Byte), List.replicate 16 (0 : Byte)]).err.isSome
      = true ∧
    (readP0 0 0 0 [List.replicate 24 (0 : Byte), List.replicate 16 (0 : Byte)]).ret = 0 ∧
    (readP0 0 0 0 [List.replicate 24 (0 : Byte), List.replicate 16 (0 : Byte)]).err.isSome
      = true := by
  have h := claim_C9 0 0 0 [List.replicate 24 (0 : Byte), List.replicate 16 (0 : Byte)]
    [List.replicate 16 (0 : Byte)] [] (List.replicate 24 (0 : Byte)) (List.replicate 16 (0 : Byte))
    (by decide) (by decide) (by decide) (by decide)
  simpa using h

/-- C3: round-trip: for every plaintext m with 0 < len(m) ≤ the reader's
buffer capacity and every key pair established via the handshake,
encrypting m with SecureWriter.Write under (A's private, B's public) and
decrypting the resulting frame with SecureReader.Read under (B's private,
A's public) yields exactly m. -/
theorem claim_C3 (privA privB cap : Nat) (m nb : List Byte)
    (hn : nb.length = 24) (h0 : 0 < m.length) (hcap : m.length ≤ cap) :
    (writeC2 privA (pubOf privB) okWriter [nb] m).emitted =
      [nb ++ boxSeal (shared privA (pubOf privB)) nb m] ∧
    (readC2 privB (pubOf privA) cap
      [nb ++ boxSeal (shared privA (pubOf privB)) nb m]).delivered = m ∧
    (readC2 privB (pubOf privA) cap
      [nb ++ boxSeal (shared privA (pubOf privB)) nb m]).err = none ∧
    (readC2 privB (pubOf privA) cap
      [nb ++ boxSeal (shared privA (pubOf privB)) nb m]).ret = m.length := by
  have hct : (boxSeal (shared privA (pubOf privB)) nb m).length = m.length + Overhead :=
    boxSeal_length _ _ _
  have hframe : 24 < (nb ++ boxSeal (shared privA (pubOf privB)) nb m).length := by
    simp only [List.length_append, hn, hct, Overhead]
    omega
  have hfull1 : readFull 24 [nb] = (nb, [], none) := readFull_exact 24 nb [] hn
  have hfull2 : readFull 24 [nb ++ boxSeal (shared privA (pubOf privB)) nb m] =
      (nb, [boxSeal (shared privA (pubOf privB)) nb m], none) := by
    rw [readFull_head_long 24 (nb ++ boxSeal (shared privA (pubOf privB)) nb m) [] hframe,
      ← hn, List.take_left, List.drop_left]
  have hchunk : readChunk (cap + Overhead)
      [boxSeal (shared privA (pubOf privB)) nb m] =
      (boxSeal (shared privA (pubOf privB)) nb m, [], none) := by
    simp only [readChunk]
    rw [if_pos (by omega)]
  have hopen : boxOpen (shared privB (pubOf privA)) nb
      (boxSeal (shared privA (pubOf privB)) nb m) = some m := by
    rw [shared_comm privB privA]
    exact boxOpen_boxSeal _ _ _
  refine ⟨?_, ?_, ?_, ?_⟩ <;> simp [writeC2, readC2, hfull1, hfull2, hchunk, hopen, okWriter]

theorem claim_C3_witness :
    (writeC2 6 (pubOf 1) okWriter [List.replicate 24 (2 : Byte)] [5]).emitted =
      [List.replicate 24 (2 : Byte) ++
        boxSeal (shared 6 (pubOf 1)) (List.replicate 24 (2 : Byte)) [5]] ∧
    (readC2 1 (pubOf 6) 1
      [List.replicate 24 (2 : Byte) ++
        boxSeal (shared 6 (pubOf 1)) (List.replicate 24 (2 : Byte)) [5]]).delivered = [5] ∧
    (readC2 1 (pubOf 6) 1
      [List.replicate 24 (2 : Byte) ++
        boxSeal (shared 6 (pubOf 1)) (List.replicate 24 (2 : Byte)) [5]]).err = none ∧
    (readC2 1 (pubOf 6) 1
      [List.replicate 24 (2 : Byte) ++
        boxSeal (shared 6 (pubOf 1)) (List.replicate 24 (2 : Byte)) [5]]).ret = 1 := by
  have h := claim_C3 6 1 1 [5] (List.replicate 24 (2 : Byte)) (by decide) (by decide) (by decide)
  simpa using h

/-- C4: in both roles (Dial as initiator, each Serve connection as
responder) the handshake writes the local 32-byte public key in full as
its first step, then block-reads exactly 32 bytes as the peer's public
key; it fails with an error when the write does not complete or when fewer
than 32 bytes arrive before the stream ends. -/
theorem claim_C4 (localPub : List Byte) (st : Stream) (hp : localPub.length = 32) :
    (dialHandshake localPub true st).sent = [localPub] ∧
    (serveHandshake localPub true st).sent = [localPub] ∧
    streamLen (dialHandshake localPub true st).sent = 32 ∧
    streamLen (serveHandshake localPub true st).sent = 32 ∧
    ((dialHandshake localPub true st).err = none ↔ 32 ≤ streamLen st) ∧
    ((serveHandshake localPub true st).err = none ↔ 32 ≤ streamLen st) ∧
    (∀ p, (dialHandshake localPub true st).peer = some p → p.length = 32) ∧
    (∀ p, (serveHandshake localPub true st).peer = some p → p.length = 32) ∧
    (dialHandshake localPub false st).err = some GoErr.writeKey ∧
    (serveHandshake localPub false st).err = some GoErr.writeKey := by
  have hlen := readFull_fst_length 32 st
  have hiff := readFull_err_none_iff 32 st
  rcases hfe : readFull 32 st with ⟨pk, st1, e⟩
  rw [hfe] at hlen hiff
  simp only at hlen hiff
  cases e with
  | none =>
      have h32 : 32 ≤ streamLen st := hiff.mp rfl
      have hpk : pk.length = 32 := by omega
      refine ⟨by simp [dialHandshake, hfe], by simp [serveHandshake, hfe],
        by simp [dialHandshake, hfe, streamLen, hp], by simp [serveHandshake, hfe, streamLen, hp],
        ?_, ?_, ?_, ?_, by simp [dialHandshake], by simp [serveHandshake]⟩
      · simp [dialHandshake, hfe, h32]
      · simp [serveHandshake, hfe, h32]
      · intro p hpp
        simp [dialHandshake, hfe] at hpp
        rw [← hpp]
        exact hpk
      · intro p hpp
        simp [serveHandshake, hfe] at hpp
        rw [← hpp]
        exact hpk
  | some e2 =>
      have h32 : ¬32 ≤ streamLen st := by
        intro hcon
        exact absurd (hiff.mpr hcon) (by simp)
      refine ⟨by simp [dialHandshake, hfe], by simp [serveHandshake, hfe],
        by simp [dialHandshake, hfe, streamLen, hp], by simp [serveHandshake, hfe, streamLen, hp],
        ?_, ?_, ?_, ?_, by simp [dialHandshake], by simp [serveHandshake]⟩
      · simp [dialHandshake, hfe, h32]
      · simp [serveHandshake, hfe, h32]
      · intro p hpp
        simp [dialHandshake, hfe] at hpp
      · intro p hpp
        simp [serveHandshake, hfe] at hpp

theorem claim_C4_witness :
    (dialHandshake (List.replicate 32 (0 : Byte)) true [List.replicate 32 (1 : Byte)]).err
      = none ∧
    (serveHandshake (List.replicate 32 (0 : Byte)) true [List.replicate 32 (1 : Byte)]).sent
      = [List.replicate 32 (0 : Byte)] ∧
    (dialHandshake (List.replicate 32 (0 : Byte)) false [List.replicate 32 (1 : Byte)]).err
      = some GoErr.writeKey ∧
    (serveHandshake (List.replicate 32 (0 : Byte)) true []).err = some GoErr.readKey := by
  obtain ⟨h1, h2, h2a, h2b, h3, h4, h5, h6, h7, h8⟩ :=
    claim_C4 (List.replicate 32 (0 : Byte)) [List.replicate 32 (1 : Byte)] (by decide)
  exact ⟨h3.mpr (by decide), h2, h7, by decide⟩

/-- C5: SecureReader.Read obtains a frame in exactly two steps: the
24-byte nonce is block-read with io.ReadFull, so it is accumulated even
across chunk boundaries and a short read fails, while the ciphertext comes
from one single underlying read call of at most cap + 16 bytes: when the
ciphertext is split across chunks, decryption is attempted on the first
chunk alone and the rest of the frame is left unconsumed. -/
theorem claim_C5 (priv pubKey cap : Nat) (a b c1 c2 : List Byte)
    (ha : 0 < a.length) (hb : 0 < b.length) (hab : a.length + b.length = 24)
    (hc1 : c1.length ≤ cap + Overhead) :
    (readC2 priv pubKey cap [a, b, c1, c2]).rest = [c2] ∧
    (readP0 priv pubKey cap [a, b, c1, c2]).rest = [c2] ∧
    (boxOpen (shared priv pubKey) (a ++ b) c1 = none →
      (readC2 priv pubKey cap [a, b, c1, c2]).err = some GoErr.openMessage ∧
      (readC2 priv pubKey cap [a, b, c1, c2]).delivered = []) ∧
    (∀ st : Stream, streamLen st < 24 →
      (readC2 priv pubKey cap st).err = some GoErr.readNonce) := by
  have hfull : readFull 24 [a, b, c1, c2] = (a ++ b, [c1, c2], none) :=
    readFull_two 24 a b [c1, c2] (by omega) hab
  have hchunk : readChunk (cap + Overhead) [c1, c2] = (c1, [c2], none) := by
    simp [readChunk, hc1]
  refine ⟨?_, ?_, ?_, ?_⟩
  · cases ho : boxOpen (shared priv pubKey) (a ++ b) c1 <;>
      simp [readC2, hfull, hchunk, ho]
  · cases ho : boxOpen (shared priv pubKey) (a ++ b) c1 <;>
      simp [readP0, hfull, hchunk, ho]
  · intro ho
    simp [readC2, hfull, hchunk, ho]
  · intro st hst
    have hiff := readFull_err_none_iff 24 st
    rcases hfe : readFull 24 st with ⟨nb, st1, e⟩
    rw [hfe] at hiff
    simp only at hiff
    cases e with
    | none => exact absurd (hiff.mp rfl) (by omega)
    | some e2 => simp [readC2, hfe]

theorem claim_C5_witness :
    (readC2 0 0 16 [List.replicate 12 (0 : Byte), List.replicate 12 (0 : Byte),
      List.replicate 20 (0 : Byte), List.replicate 20 (0 : Byte)]).rest =
      [List.replicate 20 (0 : Byte)] ∧
    (readC2 0 0 16 [List.replicate 12 (0 : Byte), List.replicate 12 (0 : Byte),
      List.replicate 20 (0 : Byte), List.replicate 20 (0 : Byte)]).err =
      some GoErr.openMessage ∧
    (readC2 0 0 16 [List.replicate 12 (0 : Byte), List.replicate 12 (0 : Byte),
      List.replicate 20 (0 : Byte), List.replicate 20 (0 : Byte)]).delivered = [] ∧
    (readC2 0 0 16 [List.replicate 8 (0 : Byte)]).err = some GoErr.readNonce := by
  obtain ⟨h1, h2, h3, h4⟩ := claim_C5 0 0 16 (List.replicate 12 (0 : Byte))
    (List.replicate 12 (0 : Byte)) (List.replicate 20 (0 : Byte)) (List.replicate 20 (0 : Byte))
    (by decide) (by decide) (by decide) (by decide)
  obtain ⟨h5, h6⟩ := h3 (by decide)
  exact ⟨h1, h5, h6, h4 [List.replicate 8 (0 : Byte)] (by decide)⟩

/-- C10: when Dial has opened the transport connection and the handshake
write fails, or fewer than 32 bytes of peer key arrive, Dial returns nil
and an error without closing the connection it opened. -/
theorem claim_C10 (localPub : List Byte) (st : Stream) (h : streamLen st < 32) :
    ((dial true true false localPub st).handle = none ∧
     (dial true true false localPub st).err.isSome = true ∧
     (dial true true false localPub st).connOpened = true ∧
     (dial true true false localPub st).connClosed = false) ∧
    ((dial true true true localPub st).handle = none ∧
     (dial true true true localPub st).err.isSome = true ∧
     (dial true true true localPub st).connOpened = true ∧
     (dial true true true localPub st).connClosed = false) := by
  have hr : (readFull 32 st).2.2 ≠ none := by
    rw [Ne, readFull_err_none_iff]
    omega
  rcases hfe : readFull 32 st with ⟨p, st1, e⟩
  rw [hfe] at hr
  cases e with
  | none => exact absurd rfl hr
  | some e2 =>
      constructor
      · simp [dial, dialHandshake]
      · simp [dial, dialHandshake, hfe]

/-- C6: a successful SecureWriter.Write issues exactly one underlying
write call whose payload is the 24-byte nonce immediately followed by the
ciphertext, and that ciphertext is len(message) + 16 bytes long; this
holds for both the challenge2 and the part_000 variant. -/
theorem claim_C6 (priv pubKey : Nat) (uw : List Byte → Nat × Option GoErr)
    (nb m : List Byte) (hn : nb.length = 24)
    (hw : (uw (nb ++ boxSeal (shared priv pubKey) nb m)).2 = none) :
    (writeC2 priv pubKey uw [nb] m).err = none ∧
    (writeC2 priv pubKey uw [nb] m).emitted = [nb ++ boxSeal (shared priv pubKey) nb m] ∧
    (writeP0 priv pubKey uw [nb] m).err = none ∧
    (writeP0 priv pubKey uw [nb] m).emitted = [nb ++ boxSeal (shared priv pubKey) nb m] ∧
    (boxSeal (shared priv pubKey) nb m).length = m.length + Overhead := by
  have hfull : readFull 24 [nb] = (nb, [], none) := readFull_exact 24 nb [] hn
  rcases hu : uw (nb ++ boxSeal (shared priv pubKey) nb m) with ⟨ws, e⟩
  rw [hu] at hw
  simp only at hw
  subst hw
  exact ⟨by simp [writeC2, hfull, hu], by simp [writeC2, hfull, hu],
    by simp [writeP0, hfull, hu], by simp [writeP0, hfull, hu], boxSeal_length _ _ _⟩

theorem claim_C6_witness :
    (writeC2 0 0 okWriter [List.replicate 24 (0 : Byte)] [5]).err = none ∧
    (writeC2 0 0 okWriter [List.replicate 24 (0 : Byte)] [5]).emitted =
      [List.replicate 24 (0 : Byte) ++ boxSeal (shared 0 0) (List.replicate 24 (0 : Byte)) [5]] ∧
    (writeP0 0 0 okWriter [List.replicate 24 (0 : Byte)] [5]).err = none ∧
    (writeP0 0 0 okWriter [List.replicate 24 (0 : Byte)] [5]).emitted =
      [List.replicate 24 (0 : Byte) ++ boxSeal (shared 0 0) (List.replicate 24 (0 : Byte)) [5]] ∧
    (boxSeal (shared 0 0) (List.replicate 24 (0 : Byte)) [5]).length = 1 + Overhead :=
  claim_C6 0 0 okWriter (List.replicate 24 (0 : Byte)) [5] (by decide) (by decide)

/-- C7: the nonce of a frame is exactly the next 24 bytes drawn from the
secure random source and depends only on that source: two Write calls over
the same randomness but with different plaintexts (and even different
keys) carry identical nonces, and the source is advanced past those 24
bytes for the next frame. -/
theorem claim_C7 (p1 q1 p2 q2 : Nat) (uw1 uw2 : List Byte → Nat × Option GoErr)
    (rand : Stream) (m1 m2 : List Byte)
    (hr : (readFull 24 rand).2.2 = none) :
    (writeC2 p1 q1 uw1 rand m1).emitted.map (fun f => f.take 24) = [(readFull 24 rand).1] ∧
    (writeC2 p2 q2 uw2 rand m2).emitted.map (fun f => f.take 24) = [(readFull 24 rand).1] ∧
    (writeC2 p1 q1 uw1 rand m1).randRest = (readFull 24 rand).2.1 ∧
    (writeC2 p2 q2 uw2 rand m2).randRest = (readFull 24 rand).2.1 := by
  have h24 : 24 ≤ streamLen rand := (readFull_err_none_iff 24 rand).1 hr
  have hnb : (readFull 24 rand).1.length = 24 := by
    rw [readFull_fst_length]
    omega
  rcases hfe : readFull 24 rand with ⟨nb, r1, e⟩
  rw [hfe] at hr hnb
  simp only at hr hnb
  subst hr
  have htake : ∀ ct : List Byte, (nb ++ ct).take 24 = nb := by
    intro ct
    rw [← hnb]
    exact List.take_left nb ct
  refine ⟨?_, ?_, ?_, ?_⟩
  · rcases hu : uw1 (nb ++ boxSeal (shared p1 q1) nb m1) with ⟨ws, e1⟩
    cases e1 <;> simp [writeC2, hfe, hu, htake]
  · rcases hu : uw2 (nb ++ boxSeal (shared p2 q2) nb m2) with ⟨ws, e2⟩
    cases e2 <;> simp [writeC2, hfe, hu, htake]
  · rcases hu : uw1 (nb ++ boxSeal (shared p1 q1) nb m1) with ⟨ws, e1⟩
    cases e1 <;> simp [writeC2, hfe, hu]
  · rcases hu : uw2 (nb ++ boxSeal (shared p2 q2) nb m2) with ⟨ws, e2⟩
    cases e2 <;> simp [writeC2, hfe, hu]

theorem claim_C7_witness :
    (writeC2 0 0 okWriter [List.replicate 24 (3 : Byte)] [5]).emitted.map (fun f => f.take 24) =
      [(readFull 24 [List.replicate 24 (3 : Byte)]).1] ∧
    (writeC2 1 2 okWriter [List.replicate 24 (3 : Byte)] [7, 9]).emitted.map
        (fun f => f.take 24) =
      [(readFull 24 [List.replicate 24 (3 : Byte)]).1] ∧
    (writeC2 0 0 okWriter [List.replicate 24 (3 : Byte)] [5]).randRest =
      (readFull 24 [List.replicate 24 (3 : Byte)]).2.1 ∧
    (writeC2 1 2 okWriter [List.replicate 24 (3 : Byte)] [7, 9]).randRest =
      (readFull 24 [List.replicate 24 (3 : Byte)]).2.1 := by
  have h := claim_C7 0 0 1 2 okWriter okWriter [List.replicate 24 (3 : Byte)] [5] [7, 9]
    (by decide)
  exact h

/-- C8: on success SecureWriter.Write returns exactly the plaintext
length, which is strictly smaller than the wire length of the frame it
wrote (nonce plus ciphertext plus tag); this holds for both variants. -/
theorem claim_C8 (priv pubKey : Nat) (uw : List Byte → Nat × Option GoErr)
    (nb m : List Byte) (hn : nb.length = 24)
    (hw : (uw (nb ++ boxSeal (shared priv pubKey) nb m)).2 = none) :
    (writeC2 priv pubKey uw [nb] m).ret = m.length ∧
    (writeP0 priv pubKey uw [nb] m).ret = m.length ∧
    m.length < (nb ++ boxSeal (shared priv pubKey) nb m).length := by
  have hfull : readFull 24 [nb] = (nb, [], none) := readFull_exact 24 nb [] hn
  rcases hu : uw (nb ++ boxSeal (shared priv pubKey) nb m) with ⟨ws, e⟩
  rw [hu] at hw
  simp only at hw
  subst hw
  refine ⟨by simp [writeC2, hfull, hu], by simp [writeP0, hfull, hu], ?_⟩
  have hl := boxSeal_length (shared priv pubKey) nb m
  simp only [List.length_append, hn, hl, Overhead]
  omega

theorem claim_C8_witness :
    (writeC2 0 0 okWriter [List.replicate 24 (0 : Byte)] [5]).ret = 1 ∧
    (writeP0 0 0 okWriter [List.replicate 24 (0 : Byte)] [5]).ret = 1 ∧
    1 < (List.replicate 24 (0 : Byte) ++
      boxSeal (shared 0 0) (List.replicate 24 (0 : Byte)) [5]).length := by
  have h := claim_C8 0 0 okWriter (List.replicate 24 (0 : Byte)) [5] (by decide) (by decide)
  simpa using h

theorem claim_C10_witness :
    ((dial true true false [] []).handle = none ∧
     (dial true true false [] []).err.isSome = true ∧
     (dial true true false [] []).connOpened = true ∧
     (dial true true false [] []).connClosed = false) ∧
    ((dial true true true [] []).handle = none ∧
     (dial true true true [] []).err.isSome = true ∧
     (dial true true true [] []).connOpened = true ∧
     (dial true true true [] []).connClosed = false) :=
  claim_C10 [] [] (by decide)

end SecureChannel
